import Mathlib

/-!
Verification of the EV charging-station locator repository.

Shallow embedding of the Python sources over exact rationals:
- `utils/data_processor.py`  (distance, estimated time, station score)
- `utils/route_optimizer.py` (complete graph, Dijkstra, multi-stop, alternatives)
- `models/chatbot.py`        (preprocessing, intent matching, response fallback)
- `models/recommendation_model.py` (KNN fit/query state)
- `data/ev_stations_data.py` (sample data generator)

Python floats are modelled by `ℚ`; `round(x, 2)` is modelled by `round2`
(ties round half-up here, half-to-even in CPython; no theorem below
depends on tie behaviour).  Library calls (geopy's `geodesic`, numpy's
`random.choice`) are modelled as explicit function parameters, so every
theorem quantifies over them.
-/

namespace EVSpec

/-- Model of Python `round(x, 2)` over exact rationals. -/
def round2 (x : ℚ) : ℚ := (round (100 * x) : ℚ) / 100

theorem round_q_mono {x y : ℚ} (h : x ≤ y) : round x ≤ round y := by
  rw [round_eq, round_eq]
  exact Int.floor_mono (by linarith)

theorem round2_nonneg {x : ℚ} (hx : 0 ≤ x) : 0 ≤ round2 x := by
  unfold round2
  have h1 : (0 : ℤ) ≤ round (100 * x) := by
    have h2 : round (0 : ℚ) ≤ round (100 * x) := round_q_mono (by positivity)
    simpa using h2
  positivity

theorem round2_le_of_le {x b : ℚ} (hb : x ≤ b) : round2 x ≤ round2 b := by
  unfold round2
  have h1 : round (100 * x) ≤ round (100 * b) := round_q_mono (by nlinarith)
  have h2 : ((round (100 * x) : ℤ) : ℚ) ≤ ((round (100 * b) : ℤ) : ℚ) := by
    exact_mod_cast h1
  linarith

theorem round2_hundred : round2 100 = 100 := by
  unfold round2
  norm_num

theorem round2_idem (x : ℚ) : round2 (round2 x) = round2 x := by
  unfold round2
  have h : (100 : ℚ) * (((round (100 * x) : ℤ) : ℚ) / 100) = ((round (100 * x) : ℤ) : ℚ) := by
    field_simp
  rw [h, round_intCast]

/-! ## `EVDataProcessor.calculate_station_score` (data_processor.py lines 96-118)

A station row, restricted to the fields the score reads:
`row.get('distance_km', 0)`, `row['power_kw']`, `row['rating']`,
`row['availability']`, `row['pricing']`. -/

structure ScoreRow where
  distance_km : Option ℚ
  power_kw : ℚ
  rating : ℚ
  availability : String
  pricing : ℚ

/-- Embedding of `EVDataProcessor.calculate_station_score`. -/
def calculate_station_score (row : ScoreRow) : ℚ :=
  let distance_score := max 0 (100 - (row.distance_km.getD 0) * 2)
  let power_score := min 100 ((row.power_kw / 150) * 100)
  let rating_score := (row.rating / 5) * 100
  let availability_score : ℚ := if row.availability = "Available" then 100 else 20
  let pricing_score := max 0 (100 - row.pricing * 100)
  let total_score :=
    distance_score * (30 / 100) +
    power_score * (20 / 100) +
    rating_score * (20 / 100) +
    availability_score * (20 / 100) +
    pricing_score * (10 / 100)
  round2 total_score

/-- C1: for rows with rating in [0,5], pricing ≥ 0, power ≥ 0, distance ≥ 0,
the score is the stated rounded weighted sum and lies in [0,100]. -/
theorem C1_station_score_formula_and_range (row : ScoreRow)
    (hrat0 : 0 ≤ row.rating) (hrat5 : row.rating ≤ 5)
    (hpr : 0 ≤ row.pricing) (hpw : 0 ≤ row.power_kw)
    (hd : 0 ≤ row.distance_km.getD 0) :
    calculate_station_score row =
      round2 ((30 / 100) * max 0 (100 - 2 * row.distance_km.getD 0) +
              (20 / 100) * min 100 ((row.power_kw / 150) * 100) +
              (20 / 100) * ((row.rating / 5) * 100) +
              (20 / 100) * (if row.availability = "Available" then (100 : ℚ) else 20) +
              (10 / 100) * max 0 (100 - row.pricing * 100)) ∧
    0 ≤ calculate_station_score row ∧ calculate_station_score row ≤ 100 := by
  have heq : calculate_station_score row =
      round2 ((30 / 100) * max 0 (100 - 2 * row.distance_km.getD 0) +
              (20 / 100) * min 100 ((row.power_kw / 150) * 100) +
              (20 / 100) * ((row.rating / 5) * 100) +
              (20 / 100) * (if row.availability = "Available" then (100 : ℚ) else 20) +
              (10 / 100) * max 0 (100 - row.pricing * 100)) := by
    unfold calculate_station_score
    ring_nf
  refine ⟨heq, ?_, ?_⟩
  all_goals
    set d := row.distance_km.getD 0 with hdd
    have hds0 : (0 : ℚ) ≤ max 0 (100 - d * 2) := le_max_left _ _
    have hds1 : max 0 (100 - d * 2) ≤ 100 := by
      apply max_le (by norm_num)
      nlinarith
    have hps0 : (0 : ℚ) ≤ min 100 ((row.power_kw / 150) * 100) := by
      apply le_min (by norm_num)
      positivity
    have hps1 : min 100 ((row.power_kw / 150) * 100) ≤ 100 := min_le_left _ _
    have hrs0 : (0 : ℚ) ≤ (row.rating / 5) * 100 := by positivity
    have hrs1 : (row.rating / 5) * 100 ≤ 100 := by nlinarith
    have has0 : (0 : ℚ) ≤ (if row.availability = "Available" then (100 : ℚ) else 20) := by
      split <;> norm_num
    have has1 : (if row.availability = "Available" then (100 : ℚ) else 20) ≤ 100 := by
      split <;> norm_num
    have hcs0 : (0 : ℚ) ≤ max 0 (100 - row.pricing * 100) := le_max_left _ _
    have hcs1 : max 0 (100 - row.pricing * 100) ≤ 100 := by
      apply max_le (by norm_num)
      nlinarith
  · unfold calculate_station_score
    apply round2_nonneg
    dsimp only
    rw [← hdd]
    positivity
  · unfold calculate_station_score
    have hb : (max 0 (100 - d * 2)) * (30 / 100) +
        (min 100 ((row.power_kw / 150) * 100)) * (20 / 100) +
        ((row.rating / 5) * 100) * (20 / 100) +
        (if row.availability = "Available" then (100 : ℚ) else 20) * (20 / 100) +
        (max 0 (100 - row.pricing * 100)) * (10 / 100) ≤ 100 := by
      nlinarith
    calc round2 _ ≤ round2 100 := round2_le_of_le hb
    _ = 100 := round2_hundred

/-- Witness for C1 at a concrete row. -/
theorem C1_witness :
    (0 : ℚ) ≤ 4.5 ∧ (4.5 : ℚ) ≤ 5 ∧ (0 : ℚ) ≤ 0.28 ∧ (0 : ℚ) ≤ 150 ∧
    (0 : ℚ) ≤ (Option.some (10 : ℚ)).getD 0 ∧
    (0 ≤ calculate_station_score ⟨some 10, 150, 4.5, "Available", 0.28⟩ ∧
      calculate_station_score ⟨some 10, 150, 4.5, "Available", 0.28⟩ ≤ 100) := by
  refine ⟨by norm_num, by norm_num, by norm_num, by norm_num, by norm_num, ?_⟩
  exact (C1_station_score_formula_and_range ⟨some 10, 150, 4.5, "Available", 0.28⟩
    (by norm_num) (by norm_num) (by norm_num) (by norm_num) (by norm_num)).2

/-! ## `EVDataProcessor.calculate_distance` (data_processor.py lines 16-26)

The geopy call `geodesic(p1, p2).kilometers` is modelled as a parameter
`geo : α → α → Option ℚ` over an arbitrary coordinate-pair type `α`
(inputs may be malformed, hence arbitrary); `none` models the call
raising an exception, which the `try/except` swallows. -/

/-- Embedding of `EVDataProcessor.calculate_distance`. -/
def calculate_distance {α : Type} (geo : (α × α) → (α × α) → Option ℚ)
    (lat1 lon1 lat2 lon2 : α) : Option ℚ :=
  match geo (lat1, lon1) (lat2, lon2) with
  | none => none
  | some d => some (round2 d)

/-- C6: `calculate_distance` is total (never propagates an exception): it
returns `none` exactly when the geodesic computation raises, and otherwise
the geodesic kilometres rounded to 2 decimal places. -/
theorem C6_calculate_distance_total {α : Type} (geo : (α × α) → (α × α) → Option ℚ)
    (lat1 lon1 lat2 lon2 : α) :
    (geo (lat1, lon1) (lat2, lon2) = none →
      calculate_distance geo lat1 lon1 lat2 lon2 = none) ∧
    (∀ d : ℚ, geo (lat1, lon1) (lat2, lon2) = some d →
      calculate_distance geo lat1 lon1 lat2 lon2 = some (round2 d)) := by
  constructor
  · intro h
    unfold calculate_distance
    rw [h]
  · intro d h
    unfold calculate_distance
    rw [h]

/-- Witness for C6 at a concrete geodesic oracle and coordinates: the raising
oracle yields `none` and a successful computation yields the rounded value. -/
theorem C6_witness :
    calculate_distance (α := ℚ) (fun _ _ => none) 1 2 3 4 = none ∧
    calculate_distance (α := ℚ) (fun _ _ => some (12.345 : ℚ)) 1 2 3 4 =
      some (round2 12.345) := by
  refine ⟨(C6_calculate_distance_total (fun _ _ => none) 1 2 3 4).1 rfl, ?_⟩
  exact (C6_calculate_distance_total (fun _ _ => some (12.345 : ℚ)) 1 2 3 4).2 12.345 rfl

/-! ## `generate_sample_ev_stations` (data/ev_stations_data.py lines 4-78)

The 14 hardcoded records, the `opening_hours` column (constant `24/7`) and
the `amenities` column drawn by `np.random.choice` from a fixed 5-element
list.  The random draw is modelled by a parameter `choice : ℕ → Fin 5`
giving the index chosen for each row.  The Python dict key `type` is a Lean
keyword and is embedded as the field `station_type`. -/

structure Station where
  station_id : String
  name : String
  latitude : ℚ
  longitude : ℚ
  country : String
  city : String
  address : String
  station_type : String
  connectors : String
  power_kw : ℚ
  availability : String
  pricing : ℚ
  rating : ℚ
  opening_hours : String
  amenities : String
deriving DecidableEq, Repr

structure BaseStation where
  station_id : String
  name : String
  latitude : ℚ
  longitude : ℚ
  country : String
  city : String
  address : String
  station_type : String
  connectors : String
  power_kw : ℚ
  availability : String
  pricing : ℚ
  rating : ℚ
deriving DecidableEq, Repr

def global_stations : List BaseStation := [
  ⟨"US001", "Tesla Supercharger - Downtown LA", 34.0522, -118.2437, "USA", "Los Angeles",
    "123 Main St", "Fast Charging", "CCS, CHAdeMO", 150, "Available", 0.28, 4.5⟩,
  ⟨"US002", "ChargePoint Station - San Francisco", 37.7749, -122.4194, "USA", "San Francisco",
    "456 Market St", "Level 2", "J1772", 7.2, "Available", 0.15, 4.2⟩,
  ⟨"US003", "EVgo Fast Charger - Seattle", 47.6062, -122.3321, "USA", "Seattle",
    "789 Pike St", "Fast Charging", "CCS, CHAdeMO", 100, "In Use", 0.32, 4.0⟩,
  ⟨"UK001", "BP Pulse - London", 51.5074, -0.1278, "UK", "London",
    "10 Oxford St", "Fast Charging", "CCS, Type 2", 120, "Available", 0.35, 4.3⟩,
  ⟨"UK002", "Ionity Charger - Manchester", 53.4808, -2.2426, "UK", "Manchester",
    "25 Deansgate", "Ultra Fast", "CCS", 350, "Available", 0.69, 4.7⟩,
  ⟨"DE001", "EnBW Charging - Berlin", 52.5200, 13.4050, "Germany", "Berlin",
    "Unter den Linden 5", "Fast Charging", "CCS, Type 2", 150, "Available", 0.45, 4.4⟩]

def india_stations : List BaseStation := [
  ⟨"IN001", "Tata Power EZ Charge - Bangalore", 12.9716, 77.5946, "India", "Bangalore",
    "MG Road, Bangalore", "Fast Charging", "CCS, CHAdeMO, Type 2", 60, "Available", 0.10, 4.1⟩,
  ⟨"IN002", "Ather Grid - Delhi", 28.7041, 77.1025, "India", "Delhi",
    "Connaught Place", "Fast Charging", "CCS, Type 2", 50, "Available", 0.08, 4.3⟩,
  ⟨"IN003", "Fortum Charge & Drive - Mumbai", 19.0760, 72.8777, "India", "Mumbai",
    "Bandra West", "Fast Charging", "CCS, CHAdeMO", 50, "In Use", 0.09, 4.0⟩,
  ⟨"IN004", "Statiq EV Charger - Hyderabad", 17.3850, 78.4867, "India", "Hyderabad",
    "Hi-Tech City", "Level 2", "Type 2", 7.2, "Available", 0.06, 3.9⟩,
  ⟨"IN005", "ChargeZone - Chennai", 13.0827, 80.2707, "India", "Chennai",
    "Anna Nagar", "Fast Charging", "CCS, Type 2", 60, "Available", 0.10, 4.2⟩,
  ⟨"IN006", "Magenta ChargeGrid - Pune", 18.5204, 73.8567, "India", "Pune",
    "Koregaon Park", "Fast Charging", "CCS, CHAdeMO, Type 2", 50, "Available", 0.09, 4.4⟩,
  ⟨"IN007", "Revos EV Charging - Kolkata", 22.5726, 88.3639, "India", "Kolkata",
    "Park Street", "Level 2", "Type 2", 7.2, "Maintenance", 0.07, 3.8⟩,
  ⟨"IN008", "Tata Power - Jaipur", 26.9124, 75.7873, "India", "Jaipur",
    "MI Road", "Fast Charging", "CCS, Type 2", 60, "Available", 0.08, 4.1⟩]

def amenities_choices : List String :=
  ["WiFi, Restroom", "Cafe, WiFi", "Shopping Mall", "Restaurant", "Rest Area"]

def amenity_of (c : Fin 5) : String := amenities_choices.get ⟨c.val, c.isLt⟩

def mk_station_row (choice : ℕ → Fin 5) (ib : ℕ × BaseStation) : Station :=
  { station_id := ib.2.station_id, name := ib.2.name, latitude := ib.2.latitude,
    longitude := ib.2.longitude, country := ib.2.country, city := ib.2.city,
    address := ib.2.address, station_type := ib.2.station_type,
    connectors := ib.2.connectors, power_kw := ib.2.power_kw,
    availability := ib.2.availability, pricing := ib.2.pricing, rating := ib.2.rating,
    opening_hours := "24/7", amenities := amenity_of (choice ib.1) }

/-- Embedding of `generate_sample_ev_stations`. -/
def generate_sample_ev_stations (choice : ℕ → Fin 5) : List Station :=
  ((global_stations ++ india_stations).enum).map (mk_station_row choice)

/-- A station record viewed as a key/value row of the DataFrame. -/
inductive FieldVal
  | str (v : String)
  | num (v : ℚ)
deriving DecidableEq, Repr

def toRow (s : Station) : List (String × FieldVal) := [
  ("station_id", .str s.station_id), ("name", .str s.name),
  ("latitude", .num s.latitude), ("longitude", .num s.longitude),
  ("country", .str s.country), ("city", .str s.city),
  ("address", .str s.address), ("type", .str s.station_type),
  ("connectors", .str s.connectors), ("power_kw", .num s.power_kw),
  ("availability", .str s.availability), ("pricing", .num s.pricing),
  ("rating", .num s.rating), ("opening_hours", .str s.opening_hours),
  ("amenities", .str s.amenities)]

def required_fields : List String :=
  ["station_id", "name", "latitude", "longitude", "country", "city", "address",
   "type", "connectors", "power_kw", "availability", "pricing", "rating",
   "opening_hours", "amenities"]

theorem toRow_has_required (s : Station) :
    ∀ f ∈ required_fields, ((toRow s).lookup f).isSome = true := by
  intro f hf
  fin_cases hf <;> rfl

/-- All fields other than `amenities` agree. -/
def agree_except_amenities (s t : Station) : Prop :=
  s.station_id = t.station_id ∧ s.name = t.name ∧ s.latitude = t.latitude ∧
  s.longitude = t.longitude ∧ s.country = t.country ∧ s.city = t.city ∧
  s.address = t.address ∧ s.station_type = t.station_type ∧
  s.connectors = t.connectors ∧ s.power_kw = t.power_kw ∧
  s.availability = t.availability ∧ s.pricing = t.pricing ∧
  s.rating = t.rating ∧ s.opening_hours = t.opening_hours

/-- C8: the generator is deterministic except for `amenities`: any two runs
agree record-by-record on every other field, and every `amenities` value is
drawn from the fixed five-element choice list. -/
theorem C8_generator_deterministic_except_amenities (choice1 choice2 : ℕ → Fin 5) :
    List.Forall₂ agree_except_amenities
      (generate_sample_ev_stations choice1) (generate_sample_ev_stations choice2) ∧
    ∀ s ∈ generate_sample_ev_stations choice1, s.amenities ∈ amenities_choices := by
  constructor
  · unfold generate_sample_ev_stations
    rw [List.forall₂_map_left_iff, List.forall₂_map_right_iff, List.forall₂_same]
    intro ib _
    exact ⟨rfl, rfl, rfl, rfl, rfl, rfl, rfl, rfl, rfl, rfl, rfl, rfl, rfl, rfl⟩
  · intro s hs
    unfold generate_sample_ev_stations at hs
    obtain ⟨ib, _, rfl⟩ := List.mem_map.mp hs
    exact List.get_mem amenities_choices _ _

/-- C9: every generated record has all 15 required fields, rating in [0,5],
and availability among the three enumerated states. -/
theorem C9_generator_invariants (choice : ℕ → Fin 5) :
    ∀ s ∈ generate_sample_ev_stations choice,
      (∀ f ∈ required_fields, ((toRow s).lookup f).isSome = true) ∧
      0 ≤ s.rating ∧ s.rating ≤ 5 ∧
      s.availability ∈ ["Available", "In Use", "Maintenance"] := by
  intro s hs
  refine ⟨toRow_has_required s, ?_⟩
  unfold generate_sample_ev_stations at hs
  obtain ⟨⟨i, b⟩, hib, rfl⟩ := List.mem_map.mp hs
  have hb : b ∈ global_stations ++ india_stations := by
    have h2 : b ∈ ((global_stations ++ india_stations).enum).map Prod.snd :=
      List.mem_map_of_mem Prod.snd hib
    rwa [List.enum_map_snd] at h2
  have h3 : (mk_station_row choice (i, b)).rating = b.rating := rfl
  have h4 : (mk_station_row choice (i, b)).availability = b.availability := rfl
  rw [h3, h4]
  fin_cases hb <;> exact ⟨by norm_num, by norm_num, by decide⟩

/-- Witness for C9 at a concrete record of a concrete run. -/
theorem C9_witness :
    mk_station_row (fun _ => (0 : Fin 5)) (0, ⟨"US001", "Tesla Supercharger - Downtown LA",
      34.0522, -118.2437, "USA", "Los Angeles", "123 Main St", "Fast Charging",
      "CCS, CHAdeMO", 150, "Available", 0.28, 4.5⟩) ∈
      generate_sample_ev_stations (fun _ => (0 : Fin 5)) ∧
    0 ≤ (mk_station_row (fun _ => (0 : Fin 5)) (0, ⟨"US001",
      "Tesla Supercharger - Downtown LA", 34.0522, -118.2437, "USA", "Los Angeles",
      "123 Main St", "Fast Charging", "CCS, CHAdeMO", 150, "Available", 0.28,
      4.5⟩)).rating := by
  have hmem : mk_station_row (fun _ => (0 : Fin 5)) (0, ⟨"US001",
      "Tesla Supercharger - Downtown LA", 34.0522, -118.2437, "USA", "Los Angeles",
      "123 Main St", "Fast Charging", "CCS, CHAdeMO", 150, "Available", 0.28, 4.5⟩) ∈
      generate_sample_ev_stations (fun _ => (0 : Fin 5)) := by
    unfold generate_sample_ev_stations
    exact List.mem_cons_self _ _
  exact ⟨hmem, ((C9_generator_invariants (fun _ => (0 : Fin 5)) _ hmem).2).1⟩

/-! ## `StationRecommendationModel` (models/recommendation_model.py lines 18-69)

The sklearn objects are modelled by the data that determines their fitted
state: the feature matrix passed to `fit`.  `prepare_features` selects the
columns `[latitude, longitude, power_kw, pricing, rating]` and appends
`distance_km` (or the constant 0 column when absent); `fillna(0)` is the
`getD 0` on the nullable distance column (the generator never produces
nulls elsewhere). -/

structure RecRow where
  latitude : ℚ
  longitude : ℚ
  power_kw : ℚ
  pricing : ℚ
  rating : ℚ
  distance_km : Option ℚ
deriving DecidableEq, Repr

/-- Embedding of `StationRecommendationModel.prepare_features`. -/
def prepare_features (stations_df : List RecRow) : List (List ℚ) :=
  stations_df.map (fun r =>
    [r.latitude, r.longitude, r.power_kw, r.pricing, r.rating, r.distance_km.getD 0])

structure KnnModelState where
  is_trained : Bool
  scaler_fit : Option (List (List ℚ))
  knn_fit : Option (List (List ℚ))
deriving DecidableEq, Repr

def initial_model_state : KnnModelState := ⟨false, none, none⟩

/-- Embedding of `StationRecommendationModel.train_knn_model`: fits the
scaler and the KNN model on the supplied table and sets `is_trained`. -/
def train_knn_model (st : KnnModelState) (stations_df : List RecRow) : KnnModelState :=
  let features := prepare_features stations_df
  { is_trained := true, scaler_fit := some features, knn_fit := some features }

/-- The model state a call to `recommend_stations_knn` queries: the method
first runs `if not self.is_trained: self.train_knn_model(stations_df)` and
then queries `self.scaler` / `self.knn_model`. -/
def recommend_stations_knn_state (st : KnnModelState) (stations_df : List RecRow) :
    KnnModelState :=
  if st.is_trained then st else train_knn_model st stations_df

/-- C4 counterexample: a model already trained on table A, when called with
table B, queries the model fit to A, not to B — so `recommend_stations_knn`
does not re-fit on every call. -/
theorem C4_counterexample :
    (recommend_stations_knn_state
        (train_knn_model initial_model_state [⟨0, 0, 0, 0, 0, none⟩])
        [⟨1, 1, 1, 1, 1, none⟩]).knn_fit ≠
      some (prepare_features [⟨1, 1, 1, 1, 1, none⟩]) ∧
    (recommend_stations_knn_state
        (train_knn_model initial_model_state [⟨0, 0, 0, 0, 0, none⟩])
        [⟨1, 1, 1, 1, 1, none⟩]).scaler_fit ≠
      some (prepare_features [⟨1, 1, 1, 1, 1, none⟩]) := by
  constructor <;> decide

/-- C4 amended: `recommend_stations_knn` fits the model and scaler only when
`is_trained` is false; an untrained call queries the model fit to that call's
table, a trained call queries the previously fitted model unchanged. -/
theorem C4_fit_only_when_untrained (st : KnnModelState) (stations_df : List RecRow) :
    (st.is_trained = false →
      (recommend_stations_knn_state st stations_df).knn_fit =
          some (prepare_features stations_df) ∧
        (recommend_stations_knn_state st stations_df).scaler_fit =
          some (prepare_features stations_df)) ∧
    (st.is_trained = true →
      recommend_stations_knn_state st stations_df = st) := by
  constructor
  · intro h
    unfold recommend_stations_knn_state
    rw [h]
    exact ⟨rfl, rfl⟩
  · intro h
    unfold recommend_stations_knn_state
    rw [h]
    rfl

/-- Witness for C4's amended theorem at the untrained initial state. -/
theorem C4_witness :
    initial_model_state.is_trained = false ∧
    (recommend_stations_knn_state initial_model_state [⟨1, 1, 1, 1, 1, none⟩]).knn_fit =
      some (prepare_features [⟨1, 1, 1, 1, 1, none⟩]) := by
  exact ⟨rfl, ((C4_fit_only_when_untrained initial_model_state
    [⟨1, 1, 1, 1, 1, none⟩]).1 rfl).1⟩

/-! ## `RouteOptimizer` (utils/route_optimizer.py)

Nodes are strings; the networkx `Graph` is a node list (dict insertion
order, first occurrence kept) plus an undirected weighted edge list (a
later `add_edge` on the same pair overwrites, hence the reversed lookup).
geopy's `geodesic(...).kilometers` is a parameter
`geo : (ℚ × ℚ) → (ℚ × ℚ) → ℚ`.  `nx.dijkstra_path` /
`nx.dijkstra_path_length` are modelled by an executable Dijkstra loop:
a frontier of tentative `(distance, path)` labels, repeatedly finalising a
minimal discovered label and relaxing with a strict `<` improvement test,
exactly as networkx relaxes. -/

abbrev Node := String

structure Graph where
  nodes : List Node
  edges : List (Node × Node × ℚ)
deriving DecidableEq, Repr

/-- Undirected edge-weight lookup; the reversal gives networkx's
last-write-wins `add_edge` semantics. -/
def edge_weight (g : Graph) (a b : Node) : Option ℚ :=
  (g.edges.reverse.find? (fun e =>
    (e.1 == a && e.2.1 == b) || (e.1 == b && e.2.1 == a))).map (fun e => e.2.2)

/-- The station columns `build_graph_from_stations` and
`calculate_multi_stop_route` read. -/
structure StationNode where
  station_id : String
  latitude : ℚ
  longitude : ℚ
  name : String
  power_kw : ℚ
  availability : String
deriving DecidableEq, Repr

/-- Node attributes: `add_node` overwrites, so the latest write wins; the
`USER` node is written first, stations after it in table order. -/
def node_coord (stations_df : List StationNode) (user_location : ℚ × ℚ) (n : Node) : ℚ × ℚ :=
  match stations_df.reverse.find? (fun r => r.station_id == n) with
  | some r => (r.latitude, r.longitude)
  | none => user_location

/-- Dict-key insertion: a repeated `add_node` keeps the first position. -/
def insert_key (ks : List Node) (n : Node) : List Node :=
  if n ∈ ks then ks else ks ++ [n]

/-- The node list of a networkx graph: insertion order, duplicates keep
their first position. -/
def dict_keys (l : List Node) : List Node := l.foldl insert_key []

/-- Embedding of `RouteOptimizer.build_graph_from_stations`. -/
def build_graph_from_stations (geo : (ℚ × ℚ) → (ℚ × ℚ) → ℚ)
    (stations_df : List StationNode) (user_location : ℚ × ℚ) : Graph :=
  let nodes := dict_keys ("USER" :: stations_df.map (fun r => r.station_id))
  let coord := node_coord stations_df user_location
  let edges := nodes.bind (fun n1 =>
    (nodes.filter (fun n2 => n2 != n1)).map (fun n2 => (n1, n2, geo (coord n1) (coord n2))))
  ⟨nodes, edges⟩

abbrev FrontierEntry := Node × Option (ℚ × List Node)
abbrev DoneEntry := Node × ℚ × List Node

/-- Pop of the priority queue: the first discovered entry of minimal
tentative distance. -/
def pick_min_entry : List FrontierEntry → Option DoneEntry
  | [] => none
  | e :: rest =>
    match e.2, pick_min_entry rest with
    | none, r => r
    | some (d, p), none => some (e.1, d, p)
    | some (d, p), some (m, dm, pm) =>
      if dm < d then some (m, dm, pm) else some (e.1, d, p)

/-- Relaxation of one frontier entry from the finalised node `m`, with
networkx's strict improvement test. -/
def relax (w : Node → Node → Option ℚ) (m : Node) (dm : ℚ) (pm : List Node)
    (e : FrontierEntry) : FrontierEntry :=
  match w m e.1 with
  | none => e
  | some wmv =>
    match e.2 with
    | none => (e.1, some (dm + wmv, pm ++ [e.1]))
    | some (dv, pv) =>
      if dm + wmv < dv then (e.1, some (dm + wmv, pm ++ [e.1])) else (e.1, some (dv, pv))

def dijkstra_loop (w : Node → Node → Option ℚ) :
    ℕ → List FrontierEntry → List DoneEntry → List DoneEntry
  | 0, _, done => done
  | fuel + 1, frontier, done =>
    match pick_min_entry frontier with
    | none => done
    | some (m, dm, pm) =>
      dijkstra_loop w fuel
        (((frontier.filter (fun e => e.1 != m)).map (relax w m dm pm)))
        (done ++ [(m, dm, pm)])

/-- Dijkstra labels from a source: finalised `(node, distance, path)`. -/
def dijkstra (g : Graph) (src : Node) : List DoneEntry :=
  dijkstra_loop (edge_weight g) g.nodes.length
    (g.nodes.map (fun n => (n, if n = src then some ((0 : ℚ), [src]) else none))) []

structure PathInfo where
  path : List Node
  distance_km : ℚ
  estimated_time_min : ℚ
deriving DecidableEq, Repr

/-- Embedding of `RouteOptimizer.find_shortest_path` (both nodes assumed in
the graph; otherwise networkx raises `NodeNotFound`, which the
`except nx.NetworkXNoPath` clause does not catch). -/
def find_shortest_path (g : Graph) (start_node end_node : Node) : Option PathInfo :=
  match (dijkstra g start_node).find? (fun e => e.1 == end_node) with
  | some e => some ⟨e.2.2, round2 e.2.1, round2 (e.2.1 / 60 * 60)⟩
  | none => none

def route_pairs : List Node → List (Node × Node)
  | a :: b :: rest => (a, b) :: route_pairs (b :: rest)
  | _ => []

structure MultiStopResult where
  route : List Node
  total_distance_km : ℚ
  estimated_time_min : ℚ
  num_stations : ℕ
deriving DecidableEq, Repr

/-- Embedding of `RouteOptimizer.calculate_multi_stop_route`. -/
def calculate_multi_stop_route (geo : (ℚ × ℚ) → (ℚ × ℚ) → ℚ)
    (user_location : ℚ × ℚ) (stations_df : List StationNode)
    (num_stops : ℕ := 3) : MultiStopResult :=
  let g := build_graph_from_stations geo stations_df user_location
  let available_stations := stations_df.filter (fun r => r.availability == "Available")
  let num_stops2 := min num_stops available_stations.length
  let station_ids := (available_stations.map (fun r => r.station_id)).take num_stops2
  let route := "USER" :: station_ids
  let total_distance := (route_pairs route).foldl
    (fun acc p =>
      match find_shortest_path g p.1 p.2 with
      | some info => acc + info.distance_km
      | none => acc) 0
  ⟨route, round2 total_distance, round2 (total_distance / 60 * 60), num_stops2⟩

/-- Total weight of a path, summing consecutive edge weights as
`get_alternative_routes` does. -/
def path_weight (g : Graph) : List Node → ℚ
  | a :: b :: rest => (edge_weight g a b).getD 0 + path_weight g (b :: rest)
  | _ => 0

/-- All simple paths from `current` to `target` extending the visited list,
fuelled by the node count. -/
def simple_paths_from (g : Graph) (target : Node) :
    ℕ → Node → List Node → List (List Node)
  | 0, _, _ => []
  | fuel + 1, current, seen =>
    if current = target then [seen ++ [current]]
    else
      (g.nodes.filter (fun n =>
        !((seen ++ [current]).contains n) && (edge_weight g current n).isSome)).bind
        (fun n => simple_paths_from g target fuel n (seen ++ [current]))

/-- Model of `nx.shortest_simple_paths`: all simple paths in increasing
total-weight order (its documented contract; ties in unspecified order). -/
def shortest_simple_paths (g : Graph) (src target : Node) : List (List Node) :=
  (simple_paths_from g target (g.nodes.length + 1) src []).mergeSort
    (fun p q => path_weight g p ≤ path_weight g q)

structure AlternativeRoute where
  route_number : ℕ
  path : List Node
  distance_km : ℚ
  estimated_time_min : ℚ
deriving DecidableEq, Repr

/-- Embedding of `RouteOptimizer.get_alternative_routes`. -/
def get_alternative_routes (geo : (ℚ × ℚ) → (ℚ × ℚ) → ℚ)
    (user_location : ℚ × ℚ) (stations_df : List StationNode)
    (target_station_id : Node) (k : ℕ := 3) : List AlternativeRoute :=
  let g := build_graph_from_stations geo stations_df user_location
  let paths := shortest_simple_paths g "USER" target_station_id
  (paths.take k).enum.map (fun ip =>
    ⟨ip.1 + 1, ip.2, round2 (path_weight g ip.2), round2 (path_weight g ip.2 / 60 * 60)⟩)

/-- Embedding of `EVDataProcessor.calculate_estimated_time`
(data_processor.py lines 28-36). -/
def calculate_estimated_time (distance_km : Option ℚ) (speed_kmh : ℚ := 60) : ℚ :=
  match distance_km with
  | none => 0
  | some d => if d = 0 then 0 else round2 (d / speed_kmh * 60)

/-! ### Supporting lemmas about the Dijkstra loop -/

theorem pick_min_entry_mem : ∀ {l : List FrontierEntry} {m : Node} {d : ℚ} {p : List Node},
    pick_min_entry l = some (m, d, p) → (m, some (d, p)) ∈ l := by
  intro l
  induction l with
  | nil => intro m d p h; simp [pick_min_entry] at h
  | cons e rest ih =>
    intro m d p h
    obtain ⟨n, st⟩ := e
    rcases st with _ | ⟨d0, p0⟩
    · simp only [pick_min_entry] at h
      exact List.mem_cons_of_mem _ (ih h)
    · simp only [pick_min_entry] at h
      rcases hr : pick_min_entry rest with _ | r
      · rw [hr] at h
        simp at h
        obtain ⟨h1, h2, h3⟩ := h
        subst h1; subst h2; subst h3
        exact List.mem_cons_self _ _
      · rw [hr] at h
        obtain ⟨mr, dr, pr⟩ := r
        dsimp only at h
        by_cases hc : dr < d0
        · rw [if_pos hc] at h
          exact List.mem_cons_of_mem _ (ih (hr.trans h))
        · rw [if_neg hc] at h
          simp at h
          obtain ⟨h1, h2, h3⟩ := h
          subst h1; subst h2; subst h3
          exact List.mem_cons_self _ _

theorem pick_min_entry_eq_none : ∀ {l : List FrontierEntry},
    pick_min_entry l = none ↔ ∀ e ∈ l, e.2 = none := by
  intro l
  induction l with
  | nil => simp [pick_min_entry]
  | cons e rest ih =>
    obtain ⟨n, st⟩ := e
    rcases st with _ | ⟨d0, p0⟩
    · simp only [pick_min_entry]
      rw [ih]
      constructor
      · intro h e2 he2
        rcases List.mem_cons.mp he2 with h1 | h1
        · rw [h1]
        · exact h e2 h1
      · intro h e2 he2
        exact h e2 (List.mem_cons_of_mem _ he2)
    · constructor
      · intro h
        exfalso
        simp only [pick_min_entry] at h
        rcases hr : pick_min_entry rest with _ | r
        · rw [hr] at h; simp at h
        · rw [hr] at h
          obtain ⟨mr, dr, pr⟩ := r
          dsimp only at h
          by_cases hc : dr < d0
          · rw [if_pos hc] at h; simp at h
          · rw [if_neg hc] at h; simp at h
      · intro h
        exfalso
        have := h (n, some (d0, p0)) (List.mem_cons_self _ _)
        simp at this

theorem relax_fst (w : Node → Node → Option ℚ) (m : Node) (dm : ℚ) (pm : List Node)
    (e : FrontierEntry) : (relax w m dm pm e).1 = e.1 := by
  obtain ⟨n, st⟩ := e
  unfold relax
  rcases hw : w m n with _ | wmv
  · rfl
  · rcases st with _ | ⟨dv, pv⟩
    · rfl
    · dsimp only
      by_cases hc : dm + wmv < dv
      · rw [if_pos hc]
      · rw [if_neg hc]

theorem relax_eq_none_iff (w : Node → Node → Option ℚ) (m : Node) (dm : ℚ) (pm : List Node)
    (e : FrontierEntry) :
    (relax w m dm pm e).2 = none ↔ e.2 = none ∧ w m e.1 = none := by
  obtain ⟨n, st⟩ := e
  unfold relax
  rcases hw : w m n with _ | wmv
  · simp [hw]
  · rcases st with _ | ⟨dv, pv⟩
    · simp [hw]
    · dsimp only
      by_cases hc : dm + wmv < dv
      · rw [if_pos hc]; simp [hw]
      · rw [if_neg hc]; simp [hw]

theorem relax_discovers (w : Node → Node → Option ℚ) (m : Node) (dm : ℚ) (pm : List Node)
    (e : FrontierEntry) (h : (relax w m dm pm e).2 ≠ none) :
    e.2 ≠ none ∨ (w m e.1).isSome = true := by
  by_cases he : e.2 = none
  · right
    rcases hw : w m e.1 with _ | wmv
    · exact absurd ((relax_eq_none_iff w m dm pm e).mpr ⟨he, hw⟩) h
    · rfl
  · exact Or.inl he

/-- Relation holding when two nodes are joined by an edge of the graph. -/
def has_edge (g : Graph) (a b : Node) : Prop := (edge_weight g a b).isSome = true

/-- Path existence between the source and a node, along edges of the graph. -/
inductive Reaches (g : Graph) (src : Node) : Node → Prop
  | refl : src ∈ g.nodes → Reaches g src src
  | step {b c : Node} : Reaches g src b → has_edge g b c → c ∈ g.nodes → Reaches g src c

/-- Invariant-based specification of the Dijkstra loop: every produced label
is reachable, finalised labels persist, discovered nodes get finalised, and
the finalised set is closed under graph edges. -/
theorem dijkstra_loop_reach (g : Graph) (src : Node) :
    ∀ (fuel : ℕ) (frontier : List FrontierEntry) (done : List DoneEntry),
    (∀ e ∈ frontier, e.1 ∈ g.nodes) →
    (∀ e ∈ frontier, e.2 ≠ none → Reaches g src e.1) →
    (∀ e ∈ done, Reaches g src e.1) →
    (∀ n ∈ g.nodes, (∃ e ∈ done, e.1 = n) ∨ (∃ e ∈ frontier, e.1 = n)) →
    (∀ e ∈ frontier, e.2 = none → ∀ e2 ∈ done, ¬ has_edge g e2.1 e.1) →
    frontier.length ≤ fuel →
    (∀ e ∈ dijkstra_loop (edge_weight g) fuel frontier done, Reaches g src e.1) ∧
    (∀ e2 ∈ done, e2 ∈ dijkstra_loop (edge_weight g) fuel frontier done) ∧
    (∀ e ∈ frontier, e.2 ≠ none →
      ∃ e2 ∈ dijkstra_loop (edge_weight g) fuel frontier done, e2.1 = e.1) ∧
    (∀ e2 ∈ dijkstra_loop (edge_weight g) fuel frontier done, ∀ v ∈ g.nodes,
      has_edge g e2.1 v → ∃ e3 ∈ dijkstra_loop (edge_weight g) fuel frontier done, e3.1 = v) := by
  intro fuel
  induction fuel with
  | zero =>
    intro frontier done h1 h2 h3 h4 h5 h6
    have hfr : frontier = [] := List.length_eq_zero.mp (Nat.le_zero.mp h6)
    subst hfr
    rw [dijkstra_loop]
    refine ⟨h3, fun e2 he2 => he2, by simp, ?_⟩
    intro e2 _ v hv _
    rcases h4 v hv with ⟨e, he, rfl⟩ | ⟨e, he, _⟩
    · exact ⟨e, he, rfl⟩
    · simp at he
  | succ fuel ih =>
    intro frontier done h1 h2 h3 h4 h5 h6
    rcases hp : pick_min_entry frontier with _ | ⟨m, dm, pm⟩
    · have hall : ∀ e ∈ frontier, e.2 = none := pick_min_entry_eq_none.mp hp
      have hres : dijkstra_loop (edge_weight g) (fuel + 1) frontier done = done := by
        rw [dijkstra_loop, hp]
      rw [hres]
      refine ⟨h3, fun e2 he2 => he2, ?_, ?_⟩
      · intro e he hne
        exact absurd (hall e he) hne
      · intro e2 he2 v hv hedge
        rcases h4 v hv with ⟨e, he, rfl⟩ | ⟨e, he, hev⟩
        · exact ⟨e, he, rfl⟩
        · subst hev
          exact absurd hedge (h5 e he (hall e he) e2 he2)
    · have hmem : (m, some (dm, pm)) ∈ frontier := pick_min_entry_mem hp
      have hres : dijkstra_loop (edge_weight g) (fuel + 1) frontier done =
          dijkstra_loop (edge_weight g) fuel
            ((frontier.filter (fun e => e.1 != m)).map (relax (edge_weight g) m dm pm))
            (done ++ [(m, dm, pm)]) := by
        rw [dijkstra_loop, hp]
      set F2 := (frontier.filter (fun e => e.1 != m)).map (relax (edge_weight g) m dm pm)
        with hF2
      set D2 := done ++ [(m, dm, pm)] with hD2
      have hmR : Reaches g src m := h2 _ hmem (by simp)
      have hF2src : ∀ e' ∈ F2,
          ∃ e ∈ frontier, e.1 ≠ m ∧ e' = relax (edge_weight g) m dm pm e := by
        intro e' he'
        rw [hF2] at he'
        obtain ⟨e, he, rfl⟩ := List.mem_map.mp he'
        have hef := List.mem_filter.mp he
        exact ⟨e, hef.1, by simpa using hef.2, rfl⟩
      have n1 : ∀ e' ∈ F2, e'.1 ∈ g.nodes := by
        intro e' he'
        obtain ⟨e, he, _, rfl⟩ := hF2src e' he'
        rw [relax_fst]
        exact h1 e he
      have n2 : ∀ e' ∈ F2, e'.2 ≠ none → Reaches g src e'.1 := by
        intro e' he' hne
        obtain ⟨e, he, _, rfl⟩ := hF2src e' he'
        rw [relax_fst]
        rcases relax_discovers (edge_weight g) m dm pm e hne with h | h
        · exact h2 e he h
        · exact Reaches.step hmR h (h1 e he)
      have n3 : ∀ e2 ∈ D2, Reaches g src e2.1 := by
        intro e2 he2
        rcases List.mem_append.mp he2 with h | h
        · exact h3 e2 h
        · rw [List.mem_singleton.mp h]
          exact hmR
      have n4 : ∀ n ∈ g.nodes, (∃ e ∈ D2, e.1 = n) ∨ (∃ e ∈ F2, e.1 = n) := by
        intro n hn
        rcases h4 n hn with ⟨e, he, rfl⟩ | ⟨e, he, rfl⟩
        · exact Or.inl ⟨e, List.mem_append_left _ he, rfl⟩
        · by_cases hem : e.1 = m
          · exact Or.inl ⟨(m, dm, pm), List.mem_append_right _ (List.mem_cons_self _ _), hem.symm⟩
          · refine Or.inr ⟨relax (edge_weight g) m dm pm e, ?_, relax_fst _ _ _ _ _⟩
            rw [hF2]
            exact List.mem_map_of_mem _ (List.mem_filter.mpr ⟨he, by simpa using hem⟩)
      have n5 : ∀ e' ∈ F2, e'.2 = none → ∀ e2 ∈ D2, ¬ has_edge g e2.1 e'.1 := by
        intro e' he' hnone e2 he2
        obtain ⟨e, he, _, rfl⟩ := hF2src e' he'
        obtain ⟨henone, hwnone⟩ := (relax_eq_none_iff _ _ _ _ e).mp hnone
        rw [relax_fst]
        rcases List.mem_append.mp he2 with h | h
        · exact h5 e he henone e2 h
        · rw [List.mem_singleton.mp h]
          intro hcon
          unfold has_edge at hcon
          rw [hwnone] at hcon
          simp at hcon
      have n6 : F2.length ≤ fuel := by
        have hlt : (frontier.filter (fun e => e.1 != m)).length < frontier.length := by
          rw [List.length_filter_lt_length_iff_exists]
          exact ⟨(m, some (dm, pm)), hmem, by simp⟩
        rw [hF2, List.length_map]
        omega
      obtain ⟨r1, r2, r3, r4⟩ := ih F2 D2 n1 n2 n3 n4 n5 n6
      rw [hres]
      refine ⟨r1, ?_, ?_, r4⟩
      · intro e2 he2
        exact r2 e2 (List.mem_append_left _ he2)
      · intro e he hne
        by_cases hem : e.1 = m
        · exact ⟨(m, dm, pm),
            r2 _ (List.mem_append_right _ (List.mem_cons_self _ _)), hem.symm⟩
        · have hef : e ∈ frontier.filter (fun e => e.1 != m) :=
            List.mem_filter.mpr ⟨he, by simpa using hem⟩
          have he' : relax (edge_weight g) m dm pm e ∈ F2 := by
            rw [hF2]
            exact List.mem_map_of_mem _ hef
          have hne' : (relax (edge_weight g) m dm pm e).2 ≠ none := by
            intro hcon
            exact hne ((relax_eq_none_iff _ _ _ _ e).mp hcon).1
          obtain ⟨e2, he2, heq⟩ := r3 _ he' hne'
          exact ⟨e2, he2, by rw [heq, relax_fst]⟩

theorem dijkstra_reach (g : Graph) (src : Node) (hsrc : src ∈ g.nodes) :
    (∀ e ∈ dijkstra g src, Reaches g src e.1) ∧
    (∀ n, Reaches g src n → ∃ e ∈ dijkstra g src, e.1 = n) := by
  obtain ⟨r1, r2, r3, r4⟩ := dijkstra_loop_reach g src g.nodes.length
    (g.nodes.map (fun n => (n, if n = src then some ((0 : ℚ), [src]) else none))) []
    (by
      intro e he
      obtain ⟨n, hn, rfl⟩ := List.mem_map.mp he
      exact hn)
    (by
      intro e he hne
      obtain ⟨n, hn, rfl⟩ := List.mem_map.mp he
      dsimp only at hne ⊢
      by_cases h : n = src
      · subst h
        exact Reaches.refl hsrc
      · rw [if_neg h] at hne
        simp at hne)
    (by simp)
    (by
      intro n hn
      exact Or.inr ⟨(n, if n = src then some ((0 : ℚ), [src]) else none),
        List.mem_map_of_mem _ hn, rfl⟩)
    (by simp)
    (by rw [List.length_map])
  refine ⟨fun e he => r1 e he, ?_⟩
  intro n h
  induction h with
  | refl h =>
    have hm : ((src : Node), if src = src then some ((0 : ℚ), [src]) else none) ∈
        g.nodes.map (fun n => (n, if n = src then some ((0 : ℚ), [src]) else none)) :=
      List.mem_map_of_mem _ hsrc
    have h2 := r3 _ hm (by simp)
    simpa using h2
  | step hb hedge hcn ihb =>
    obtain ⟨e, he, rfl⟩ := ihb
    exact r4 e he _ hcn hedge

/-- C7: for nodes of the graph, `find_shortest_path` returns `None` exactly
when no path exists between them, and otherwise a result holding the
Dijkstra label's path and its total length rounded to 2 decimal places. -/
theorem C7_find_shortest_path_none_iff_no_path (g : Graph) (a b : Node)
    (ha : a ∈ g.nodes) (hb : b ∈ g.nodes) :
    (find_shortest_path g a b = none ↔ ¬ Reaches g a b) ∧
    (∀ info, find_shortest_path g a b = some info →
      ∃ e ∈ dijkstra g a, e.1 = b ∧
        info = ⟨e.2.2, round2 e.2.1, round2 (e.2.1 / 60 * 60)⟩) := by
  obtain ⟨r1, r2⟩ := dijkstra_reach g a ha
  refine ⟨⟨?_, ?_⟩, ?_⟩
  · intro hnone hR
    obtain ⟨e, he, heb⟩ := r2 _ hR
    unfold find_shortest_path at hnone
    rcases hf : (dijkstra g a).find? (fun e2 => e2.1 == b) with _ | e2
    · rw [List.find?_eq_none] at hf
      exact absurd (by simpa using hf e he) (by simp [heb])
    · rw [hf] at hnone
      simp at hnone
  · intro hnR
    unfold find_shortest_path
    rcases hf : (dijkstra g a).find? (fun e => e.1 == b) with _ | e
    · rw [hf]
    · exfalso
      have hmem := List.mem_of_find?_eq_some hf
      have heb : e.1 = b := by simpa using List.find?_some hf
      exact hnR (heb ▸ r1 e hmem)
  · intro info hsome
    unfold find_shortest_path at hsome
    rcases hf : (dijkstra g a).find? (fun e => e.1 == b) with _ | e
    · rw [hf] at hsome
      simp at hsome
    · rw [hf] at hsome
      have hmem := List.mem_of_find?_eq_some hf
      have heb : e.1 = b := by simpa using List.find?_some hf
      refine ⟨e, hmem, heb, ?_⟩
      simpa using hsome.symm

/-! ### The built graph is complete -/

theorem build_graph_edge_weight (geo : (ℚ × ℚ) → (ℚ × ℚ) → ℚ)
    (stations_df : List StationNode) (user_location : ℚ × ℚ)
    (hsym : ∀ p q, geo p q = geo q p) (a b : Node)
    (ha : a ∈ (build_graph_from_stations geo stations_df user_location).nodes)
    (hb : b ∈ (build_graph_from_stations geo stations_df user_location).nodes)
    (hab : a ≠ b) :
    edge_weight (build_graph_from_stations geo stations_df user_location) a b =
      some (geo (node_coord stations_df user_location a)
        (node_coord stations_df user_location b)) := by
  set g := build_graph_from_stations geo stations_df user_location with hg
  set coord := node_coord stations_df user_location with hcoord
  have hedges : g.edges = g.nodes.bind (fun n1 =>
      (g.nodes.filter (fun n2 => n2 != n1)).map
        (fun n2 => (n1, n2, geo (coord n1) (coord n2)))) := rfl
  have hval : ∀ e ∈ g.edges,
      ((e.1 == a && e.2.1 == b) || (e.1 == b && e.2.1 == a)) = true →
      e.2.2 = geo (coord a) (coord b) := by
    intro e he hpred
    rw [hedges] at he
    obtain ⟨n1, _, he2⟩ := List.mem_bind.mp he
    obtain ⟨n2, _, rfl⟩ := List.mem_map.mp he2
    simp only [beq_iff_eq, Bool.or_eq_true, Bool.and_eq_true] at hpred
    rcases hpred with ⟨rfl, rfl⟩ | ⟨rfl, rfl⟩
    · rfl
    · exact hsym _ _
  have hmem : (a, b, geo (coord a) (coord b)) ∈ g.edges := by
    rw [hedges]
    refine List.mem_bind.mpr ⟨a, ha, List.mem_map_of_mem _ (List.mem_filter.mpr ⟨hb, ?_⟩)⟩
    simpa using (Ne.symm hab)
  unfold edge_weight
  rcases hf : g.edges.reverse.find? (fun e =>
      (e.1 == a && e.2.1 == b) || (e.1 == b && e.2.1 == a)) with _ | e
  · exfalso
    rw [List.find?_eq_none] at hf
    have h2 := hf _ (List.mem_reverse.mpr hmem)
    simp at h2
  · have hem : e ∈ g.edges := List.mem_reverse.mp (List.mem_of_find?_eq_some hf)
    have hpred := List.find?_some hf
    rw [hf, Option.map_some']
    rw [hval e hem hpred]

theorem node_coord_user (stations_df : List StationNode) (user_location : ℚ × ℚ)
    (hUSER : "USER" ∉ stations_df.map (fun r => r.station_id)) :
    node_coord stations_df user_location "USER" = user_location := by
  unfold node_coord
  rcases hf : stations_df.reverse.find? (fun r => r.station_id == "USER") with _ | r
  · rw [hf]
  · exfalso
    have hmem := List.mem_reverse.mp (List.mem_of_find?_eq_some hf)
    have hpred : r.station_id = "USER" := by simpa using List.find?_some hf
    exact hUSER (hpred ▸ List.mem_map_of_mem _ hmem)

theorem node_coord_station (stations_df : List StationNode) (user_location : ℚ × ℚ)
    (s : StationNode) (hs : s ∈ stations_df)
    (hnodup : (stations_df.map (fun r => r.station_id)).Nodup) :
    node_coord stations_df user_location s.station_id = (s.latitude, s.longitude) := by
  unfold node_coord
  rcases hf : stations_df.reverse.find? (fun r => r.station_id == s.station_id) with _ | r
  · exfalso
    rw [List.find?_eq_none] at hf
    have h2 := hf s (List.mem_reverse.mpr hs)
    simp at h2
  · have hmem := List.mem_reverse.mp (List.mem_of_find?_eq_some hf)
    have hpred : r.station_id = s.station_id := by simpa using List.find?_some hf
    have hrs : r = s := List.inj_on_of_nodup_map hnodup hmem hs hpred
    rw [hf, hrs]

theorem build_graph_nodes (geo : (ℚ × ℚ) → (ℚ × ℚ) → ℚ)
    (stations_df : List StationNode) (user_location : ℚ × ℚ) :
    (build_graph_from_stations geo stations_df user_location).nodes =
      dict_keys ("USER" :: stations_df.map (fun r => r.station_id)) := rfl

theorem foldl_insert_key_mem (l : List Node) :
    ∀ (acc : List Node) (a : Node), a ∈ l.foldl insert_key acc ↔ a ∈ acc ∨ a ∈ l := by
  induction l with
  | nil => simp
  | cons b rest ih =>
    intro acc a
    rw [List.foldl_cons, ih]
    unfold insert_key
    by_cases h : b ∈ acc
    · rw [if_pos h]
      simp only [List.mem_cons]
      constructor
      · intro hc
        rcases hc with hc | hc
        · exact Or.inl hc
        · exact Or.inr (Or.inr hc)
      · intro hc
        rcases hc with hc | hc | hc
        · exact Or.inl hc
        · exact Or.inl (hc ▸ h)
        · exact Or.inr hc
    · rw [if_neg h]
      simp only [List.mem_append, List.mem_singleton, List.mem_cons]
      tauto

theorem mem_dict_keys (l : List Node) (a : Node) : a ∈ dict_keys l ↔ a ∈ l := by
  unfold dict_keys
  rw [foldl_insert_key_mem]
  simp

/-! ### On a complete graph whose weights satisfy the triangle inequality,
Dijkstra finalises every node with the direct edge from the source. -/

theorem relax_no_improve (w : Node → Node → Option ℚ) (m : Node) (dm : ℚ) (pm : List Node)
    (n : Node) (dv : ℚ) (pv : List Node) (wmv : ℚ)
    (hw : w m n = some wmv) (hle : dv ≤ dm + wmv) :
    relax w m dm pm (n, some (dv, pv)) = (n, some (dv, pv)) := by
  unfold relax
  dsimp only
  rw [hw]
  dsimp only
  rw [if_neg (not_lt.mpr hle)]

theorem dijkstra_loop_direct (w : Node → Node → Option ℚ) (u : Node) (wU : Node → ℚ)
    (S : Node → Prop)
    (hW : ∀ m v, S m → S v → m ≠ v → ∃ wmv, w m v = some wmv ∧ wU v ≤ wU m + wmv) :
    ∀ (fuel : ℕ) (frontier : List FrontierEntry) (done : List DoneEntry),
    (∀ e ∈ frontier, S e.1 ∧ e.2 = some (wU e.1, [u, e.1])) →
    (∀ e ∈ done, e = (u, 0, [u]) ∨ (S e.1 ∧ e = (e.1, wU e.1, [u, e.1]))) →
    ∀ e ∈ dijkstra_loop w fuel frontier done,
      e = (u, 0, [u]) ∨ (S e.1 ∧ e = (e.1, wU e.1, [u, e.1])) := by
  intro fuel
  induction fuel with
  | zero =>
    intro frontier done _ h2
    rw [dijkstra_loop]
    exact h2
  | succ fuel ih =>
    intro frontier done h1 h2
    rcases hp : pick_min_entry frontier with _ | ⟨m, dm, pm⟩
    · rw [dijkstra_loop, hp]
      exact h2
    · rw [dijkstra_loop, hp]
      have hmem := pick_min_entry_mem hp
      obtain ⟨hSm, hval⟩ := h1 _ hmem
      have hdm : dm = wU m := by
        have := Option.some.inj hval
        exact (Prod.mk.injEq _ _ _ _).mp this |>.1
      have hpm : pm = [u, m] := by
        have := Option.some.inj hval
        exact (Prod.mk.injEq _ _ _ _).mp this |>.2
      apply ih
      · intro e' he'
        obtain ⟨e, he, rfl⟩ := List.mem_map.mp he'
        have hef := List.mem_filter.mp he
        obtain ⟨hSe, hvale⟩ := h1 _ hef.1
        have hem : e.1 ≠ m := by simpa using hef.2
        obtain ⟨wmv, hwmv, htri⟩ := hW m e.1 hSm hSe (Ne.symm hem)
        obtain ⟨n, st⟩ := e
        dsimp only at hvale hwmv htri hSe hem ⊢
        subst hvale
        have hle : wU n ≤ dm + wmv := by
          rw [hdm]
          exact htri
        rw [relax_no_improve w m dm pm n (wU n) [u, n] wmv hwmv hle]
        exact ⟨hSe, rfl⟩
      · intro e2 he2
        rcases List.mem_append.mp he2 with h | h
        · exact h2 e2 h
        · rw [List.mem_singleton.mp h]
          right
          refine ⟨hSm, ?_⟩
          rw [hdm, hpm]

theorem pick_min_entry_unique (l : List FrontierEntry) (u : Node) (d : ℚ) (p : List Node)
    (hex : ∃ e ∈ l, e.2 ≠ none)
    (hval : ∀ e ∈ l, e.2 = none ∨ (e.1 = u ∧ e.2 = some (d, p))) :
    pick_min_entry l = some (u, d, p) := by
  rcases hp : pick_min_entry l with _ | ⟨m, dm, pm⟩
  · exfalso
    obtain ⟨e, he, hne⟩ := hex
    exact hne (pick_min_entry_eq_none.mp hp e he)
  · have h2 := pick_min_entry_mem hp
    rcases hval _ h2 with h | ⟨h3, h4⟩
    · simp at h
    · dsimp only at h3 h4
      have h5 := Option.some.inj h4
      have h6 := (Prod.mk.injEq _ _ _ _).mp h5
      rw [h3, h6.1, h6.2]

/-- On a graph that is complete over its node list with weight `W`
satisfying the triangle inequality through the source, every Dijkstra
label is the direct edge from the source. -/
theorem dijkstra_complete_direct (g : Graph) (src : Node) (W : Node → Node → ℚ)
    (hsrc : src ∈ g.nodes)
    (hcomplete : ∀ a b, a ∈ g.nodes → b ∈ g.nodes → a ≠ b →
      edge_weight g a b = some (W a b))
    (htri : ∀ m v, m ∈ g.nodes → v ∈ g.nodes → m ≠ src → v ≠ src → m ≠ v →
      W src v ≤ W src m + W m v) :
    ∀ e ∈ dijkstra g src, e = (src, 0, [src]) ∨
      (e.1 ∈ g.nodes ∧ e.1 ≠ src ∧ e = (e.1, W src e.1, [src, e.1])) := by
  intro e he
  unfold dijkstra at he
  rcases hn : g.nodes.length with _ | k
  · exfalso
    have h0 : g.nodes = [] := List.length_eq_zero.mp hn
    rw [h0] at hsrc
    simp at hsrc
  · rw [hn] at he
    set frontier0 := g.nodes.map
      (fun n => (n, if n = src then some ((0 : ℚ), [src]) else none)) with hf0
    have hp : pick_min_entry frontier0 = some (src, 0, [src]) := by
      apply pick_min_entry_unique
      · refine ⟨((src : Node), if src = src then some ((0 : ℚ), [src]) else none),
          List.mem_map_of_mem _ hsrc, ?_⟩
        simp
      · intro e2 he2
        rw [hf0] at he2
        obtain ⟨n2, _, rfl⟩ := List.mem_map.mp he2
        by_cases h : n2 = src
        · subst h
          exact Or.inr ⟨rfl, by rw [if_pos rfl]⟩
        · exact Or.inl (by rw [if_neg h])
    rw [dijkstra_loop, hp] at he
    have hres := dijkstra_loop_direct (edge_weight g) src
      (W src) (fun n => n ∈ g.nodes ∧ n ≠ src)
      (by
        intro m2 v hm2 hv hne
        exact ⟨W m2 v, hcomplete m2 v hm2.1 hv.1 hne,
          htri m2 v hm2.1 hv.1 hm2.2 hv.2 hne⟩)
      k _ _
      (by
        intro e' he'
        obtain ⟨e2, he2, rfl⟩ := List.mem_map.mp he'
        have hef := List.mem_filter.mp he2
        have hfr := hef.1
        rw [hf0] at hfr
        obtain ⟨n2, hn3, rfl⟩ := List.mem_map.mp hfr
        have hne2 : n2 ≠ src := by simpa using hef.2
        rw [if_neg hne2]
        have hw := hcomplete src n2 hsrc hn3 (fun hc => hne2 hc.symm)
        have hrel : relax (edge_weight g) src 0 [src] (n2, none) =
            (n2, some (0 + W src n2, [src] ++ [n2])) := by
          unfold relax
          dsimp only
          rw [hw]
        rw [hrel, zero_add]
        exact ⟨⟨hn3, hne2⟩, rfl⟩)
      (by
        intro e2 he2
        rw [List.mem_singleton.mp he2]
        exact Or.inl rfl)
      e he
    rcases hres with h | ⟨hS, hval⟩
    · exact Or.inl h
    · exact Or.inr ⟨hS.1, hS.2, hval⟩

/-- C3: the built graph is complete — every pair of distinct nodes is joined
by an edge weighted by the geodesic distance of their coordinates — and,
when the geodesic weights satisfy the triangle inequality (and station ids
are distinct and distinct from `USER`), the shortest path found from `USER`
to any station is the direct edge: path `["USER", id]` with the single
edge's weight (rounded to 2 decimals in the returned record). -/
theorem C3_complete_graph_and_direct_path (geo : (ℚ × ℚ) → (ℚ × ℚ) → ℚ)
    (stations_df : List StationNode) (user_location : ℚ × ℚ)
    (hsym : ∀ p q, geo p q = geo q p)
    (htri : ∀ p q r : ℚ × ℚ, geo p q ≤ geo p r + geo r q)
    (hUSER : "USER" ∉ stations_df.map (fun r => r.station_id))
    (hnodup : (stations_df.map (fun r => r.station_id)).Nodup) :
    (∀ a ∈ (build_graph_from_stations geo stations_df user_location).nodes,
      ∀ b ∈ (build_graph_from_stations geo stations_df user_location).nodes, a ≠ b →
      edge_weight (build_graph_from_stations geo stations_df user_location) a b =
        some (geo (node_coord stations_df user_location a)
          (node_coord stations_df user_location b))) ∧
    (∀ s ∈ stations_df,
      edge_weight (build_graph_from_stations geo stations_df user_location)
          "USER" s.station_id = some (geo user_location (s.latitude, s.longitude)) ∧
      find_shortest_path (build_graph_from_stations geo stations_df user_location)
          "USER" s.station_id =
        some ⟨["USER", s.station_id],
          round2 (geo user_location (s.latitude, s.longitude)),
          round2 (geo user_location (s.latitude, s.longitude) / 60 * 60)⟩) := by
  set g := build_graph_from_stations geo stations_df user_location with hg
  set coord := node_coord stations_df user_location with hcoord
  have hcomp : ∀ a ∈ g.nodes, ∀ b ∈ g.nodes, a ≠ b →
      edge_weight g a b = some (geo (coord a) (coord b)) := by
    intro a ha b hb hab
    exact build_graph_edge_weight geo stations_df user_location hsym a b ha hb hab
  refine ⟨hcomp, ?_⟩
  intro s hs
  have huser_mem : "USER" ∈ g.nodes := by
    rw [hg, build_graph_nodes, mem_dict_keys]
    exact List.mem_cons_self _ _
  have hsid_mem : s.station_id ∈ g.nodes := by
    rw [hg, build_graph_nodes, mem_dict_keys]
    exact List.mem_cons_of_mem _ (List.mem_map_of_mem _ hs)
  have hne : s.station_id ≠ "USER" := by
    intro h
    exact hUSER (h ▸ List.mem_map_of_mem _ hs)
  have hcu : coord "USER" = user_location :=
    node_coord_user stations_df user_location hUSER
  have hcs : coord s.station_id = (s.latitude, s.longitude) :=
    node_coord_station stations_df user_location s hs hnodup
  have hew : edge_weight g "USER" s.station_id =
      some (geo user_location (s.latitude, s.longitude)) := by
    rw [hcomp "USER" huser_mem s.station_id hsid_mem (Ne.symm hne), hcu, hcs]
  refine ⟨hew, ?_⟩
  have hchar := dijkstra_complete_direct g "USER" (fun a b => geo (coord a) (coord b))
    huser_mem (fun a b ha hb hab => hcomp a ha b hb hab)
    (by
      intro m v _ _ _ _ _
      exact htri (coord "USER") (coord v) (coord m))
  have hreach : Reaches g "USER" s.station_id := by
    refine Reaches.step (Reaches.refl huser_mem) ?_ hsid_mem
    unfold has_edge
    rw [hew]
    rfl
  obtain ⟨e, he, heid⟩ := (dijkstra_reach g "USER" huser_mem).2 _ hreach
  unfold find_shortest_path
  rcases hf : (dijkstra g "USER").find? (fun e2 => e2.1 == s.station_id) with _ | e2
  · exfalso
    rw [List.find?_eq_none] at hf
    have h2 := hf e he
    rw [heid] at h2
    simp at h2
  · have hmem2 := List.mem_of_find?_eq_some hf
    have heb : e2.1 = s.station_id := by simpa using List.find?_some hf
    rcases hchar e2 hmem2 with h | ⟨_, _, hval⟩
    · exfalso
      rw [h] at heb
      exact hne heb.symm
    · rw [hf]
      rw [hval, heb]
      dsimp only
      rw [hcu, hcs]

/-- Taxicab metric on rational coordinate pairs: a computable stand-in for
the geodesic distance that is symmetric and satisfies the triangle
inequality, used to instantiate witnesses. -/
def taxi (p q : ℚ × ℚ) : ℚ := |p.1 - q.1| + |p.2 - q.2|

theorem taxi_symm (p q : ℚ × ℚ) : taxi p q = taxi q p := by
  unfold taxi
  rw [abs_sub_comm, abs_sub_comm p.2]

theorem taxi_triangle (p q r : ℚ × ℚ) : taxi p q ≤ taxi p r + taxi r q := by
  unfold taxi
  have h1 : |p.1 - q.1| ≤ |p.1 - r.1| + |r.1 - q.1| := abs_sub_le _ _ _
  have h2 : |p.2 - q.2| ≤ |p.2 - r.2| + |r.2 - q.2| := abs_sub_le _ _ _
  linarith

/-- Witness for C3 on a one-station table under the taxicab metric. -/
theorem C3_witness :
    ("USER" ∉ ([⟨"S1", 1, 0, "Station One", 50, "Available"⟩] :
      List StationNode).map (fun r => r.station_id)) ∧
    (([⟨"S1", 1, 0, "Station One", 50, "Available"⟩] :
      List StationNode).map (fun r => r.station_id)).Nodup ∧
    find_shortest_path
      (build_graph_from_stations taxi
        [⟨"S1", 1, 0, "Station One", 50, "Available"⟩] (0, 0)) "USER" "S1" =
      some ⟨["USER", "S1"], round2 (taxi (0, 0) (1, 0)),
        round2 (taxi (0, 0) (1, 0) / 60 * 60)⟩ := by
  refine ⟨by decide, by decide, ?_⟩
  exact ((C3_complete_graph_and_direct_path taxi
    [⟨"S1", 1, 0, "Station One", 50, "Available"⟩] (0, 0)
    taxi_symm taxi_triangle (by decide) (by decide)).2
    ⟨"S1", 1, 0, "Station One", 50, "Available"⟩ (by decide)).2

/-- Witness for C7 on the one-station graph. -/
theorem C7_witness :
    ("USER" ∈ (build_graph_from_stations taxi
      [⟨"S1", 1, 0, "Station One", 50, "Available"⟩] (0, 0)).nodes) ∧
    ("S1" ∈ (build_graph_from_stations taxi
      [⟨"S1", 1, 0, "Station One", 50, "Available"⟩] (0, 0)).nodes) ∧
    (find_shortest_path (build_graph_from_stations taxi
        [⟨"S1", 1, 0, "Station One", 50, "Available"⟩] (0, 0)) "USER" "S1" = none ↔
      ¬ Reaches (build_graph_from_stations taxi
        [⟨"S1", 1, 0, "Station One", 50, "Available"⟩] (0, 0)) "USER" "S1") := by
  refine ⟨by decide, by decide, ?_⟩
  exact (C7_find_shortest_path_none_iff_no_path
    (build_graph_from_stations taxi
      [⟨"S1", 1, 0, "Station One", 50, "Available"⟩] (0, 0)) "USER" "S1"
    (by decide) (by decide)).1

theorem round2_div60_mul60 (x : ℚ) : round2 (x / 60 * 60) = round2 x := by
  rw [div_mul_cancel₀ x (by norm_num : (60 : ℚ) ≠ 0)]

/-- C10: in every result of the route functions, and for
`calculate_estimated_time` at the default 60 km/h on an already-rounded
distance, the estimated time in minutes numerically equals the distance in
kilometres, because time is computed as `round((d / 60) * 60, 2)`. -/
theorem C10_estimated_time_equals_distance (g : Graph) (a b : Node)
    (geo : (ℚ × ℚ) → (ℚ × ℚ) → ℚ) (user_location : ℚ × ℚ)
    (stations_df : List StationNode) (num_stops k : ℕ) (target : Node) (x : ℚ) :
    (∀ info, find_shortest_path g a b = some info →
      info.estimated_time_min = info.distance_km) ∧
    ((calculate_multi_stop_route geo user_location stations_df num_stops).estimated_time_min =
      (calculate_multi_stop_route geo user_location stations_df num_stops).total_distance_km) ∧
    (∀ r ∈ get_alternative_routes geo user_location stations_df target k,
      r.estimated_time_min = r.distance_km) ∧
    calculate_estimated_time (some (round2 x)) 60 = round2 x := by
  refine ⟨?_, ?_, ?_, ?_⟩
  · intro info hsome
    unfold find_shortest_path at hsome
    rcases hf : (dijkstra g a).find? (fun e => e.1 == b) with _ | e
    · rw [hf] at hsome
      simp at hsome
    · rw [hf] at hsome
      have h2 := Option.some.inj hsome
      rw [← h2]
      exact round2_div60_mul60 _
  · simp only [calculate_multi_stop_route]
    exact round2_div60_mul60 _
  · intro r hr
    unfold get_alternative_routes at hr
    obtain ⟨ip, _, rfl⟩ := List.mem_map.mp hr
    exact round2_div60_mul60 _
  · unfold calculate_estimated_time
    dsimp only
    by_cases h : round2 x = 0
    · rw [if_pos h]
      exact h.symm
    · rw [if_neg h, round2_div60_mul60, round2_idem]

/-- Witness for C10 at concrete inputs. -/
theorem C10_witness :
    (calculate_multi_stop_route taxi (0, 0)
      [⟨"S1", 1, 0, "Station One", 50, "Available"⟩] 3).estimated_time_min =
      (calculate_multi_stop_route taxi (0, 0)
        [⟨"S1", 1, 0, "Station One", 50, "Available"⟩] 3).total_distance_km ∧
    calculate_estimated_time (some (round2 5)) 60 = round2 5 := by
  refine ⟨?_, ?_⟩
  · exact (C10_estimated_time_equals_distance
      (build_graph_from_stations taxi
        [⟨"S1", 1, 0, "Station One", 50, "Available"⟩] (0, 0)) "USER" "S1"
      taxi (0, 0) [⟨"S1", 1, 0, "Station One", 50, "Available"⟩] 3 3 "S1" 5).2.1
  · exact (C10_estimated_time_equals_distance
      (build_graph_from_stations taxi
        [⟨"S1", 1, 0, "Station One", 50, "Available"⟩] (0, 0)) "USER" "S1"
      taxi (0, 0) [⟨"S1", 1, 0, "Station One", 50, "Available"⟩] 3 3 "S1" 5).2.2.2

theorem fold_dist_eq_sum (g : Graph) (pairs : List (Node × Node)) (c : ℚ) :
    pairs.foldl (fun acc p =>
      match find_shortest_path g p.1 p.2 with
      | some info => acc + info.distance_km
      | none => acc) c =
    c + (pairs.map (fun p =>
      ((find_shortest_path g p.1 p.2).map PathInfo.distance_km).getD 0)).sum := by
  induction pairs generalizing c with
  | nil => simp
  | cons p rest ih =>
    rw [List.foldl_cons, ih, List.map_cons, List.sum_cons]
    rcases h : find_shortest_path g p.1 p.2 with _ | info
    · dsimp only
      simp
    · dsimp only
      simp only [Option.map_some', Option.getD_some]
      ring

/-- C5: `calculate_multi_stop_route` performs no sequencing optimisation:
the route is `USER` followed by the first `min(num_stops, #Available)`
Available station ids in table order, and the total distance is the rounded
sum of the pairwise shortest-path distances along that fixed order. -/
theorem C5_multi_stop_concatenates_input_order (geo : (ℚ × ℚ) → (ℚ × ℚ) → ℚ)
    (user_location : ℚ × ℚ) (stations_df : List StationNode) (num_stops : ℕ) :
    (calculate_multi_stop_route geo user_location stations_df num_stops).route =
      "USER" :: ((stations_df.filter (fun r => r.availability == "Available")).map
        (fun r => r.station_id)).take
        (min num_stops (stations_df.filter
          (fun r => r.availability == "Available")).length) ∧
    (calculate_multi_stop_route geo user_location stations_df num_stops).num_stations =
      min num_stops (stations_df.filter (fun r => r.availability == "Available")).length ∧
    (calculate_multi_stop_route geo user_location stations_df num_stops).total_distance_km =
      round2 ((route_pairs ("USER" ::
          ((stations_df.filter (fun r => r.availability == "Available")).map
            (fun r => r.station_id)).take
            (min num_stops (stations_df.filter
              (fun r => r.availability == "Available")).length))).map (fun p =>
        ((find_shortest_path (build_graph_from_stations geo stations_df user_location)
          p.1 p.2).map PathInfo.distance_km).getD 0)).sum := by
  refine ⟨rfl, rfl, ?_⟩
  simp only [calculate_multi_stop_route]
  rw [fold_dist_eq_sum, zero_add]

/-- Witness for C5 at a concrete table with one unavailable station. -/
theorem C5_witness :
    (calculate_multi_stop_route taxi (0, 0)
      [⟨"S1", 1, 0, "A", 50, "Available"⟩, ⟨"S2", 2, 0, "B", 50, "In Use"⟩,
       ⟨"S3", 5, 0, "C", 50, "Available"⟩] 3).route = ["USER", "S1", "S3"] ∧
    (calculate_multi_stop_route taxi (0, 0)
      [⟨"S1", 1, 0, "A", 50, "Available"⟩, ⟨"S2", 2, 0, "B", 50, "In Use"⟩,
       ⟨"S3", 5, 0, "C", 50, "Available"⟩] 3).num_stations = 2 := by
  have h := C5_multi_stop_concatenates_input_order taxi (0, 0)
    [⟨"S1", 1, 0, "A", 50, "Available"⟩, ⟨"S2", 2, 0, "B", 50, "In Use"⟩,
     ⟨"S3", 5, 0, "C", 50, "Available"⟩] 3
  refine ⟨?_, ?_⟩
  · rw [h.1]
    decide
  · rw [h.2.1]
    decide

/-! ## `EVChatbot` (models/chatbot.py lines 137-186)

`preprocess_text` lowercases, strips punctuation (`re.sub(r'[^\w\s]', '')`),
tokenizes and removes NLTK English stop words.  Tokenization is modelled as
whitespace splitting: after punctuation stripping the text consists of word
characters and whitespace only, on which `word_tokenize` coincides with
`str.split` (which is also the code's `except`-fallback).  The stop-word
set is NLTK's English list; its apostrophe forms (`don't`, `you're`, …) are
omitted here because tokens never contain apostrophes after punctuation
stripping, so they can never be removed anyway.  The canned response texts
are elided: `get_response_source` returns which intent's response pool
`random.choice` draws from, `none` meaning the default reply. -/

def stop_words : List String := [
  "i", "me", "my", "myself", "we", "our", "ours", "ourselves", "you", "your",
  "yours", "yourself", "yourselves", "he", "him", "his", "himself", "she",
  "her", "hers", "herself", "it", "its", "itself", "they", "them", "their",
  "theirs", "themselves", "what", "which", "who", "whom", "this", "that",
  "these", "those", "am", "is", "are", "was", "were", "be", "been", "being",
  "have", "has", "had", "having", "do", "does", "did", "doing", "a", "an",
  "the", "and", "but", "if", "or", "because", "as", "until", "while", "of",
  "at", "by", "for", "with", "about", "against", "between", "into",
  "through", "during", "before", "after", "above", "below", "to", "from",
  "up", "down", "in", "out", "on", "off", "over", "under", "again",
  "further", "then", "once", "here", "there", "when", "where", "why", "how",
  "all", "any", "both", "each", "few", "more", "most", "other", "some",
  "such", "no", "nor", "not", "only", "own", "same", "so", "than", "too",
  "very", "s", "t", "can", "will", "just", "don", "should", "now", "d",
  "ll", "m", "o", "re", "ve", "y", "ain", "aren", "couldn", "didn",
  "doesn", "hadn", "hasn", "haven", "isn", "ma", "mightn", "mustn",
  "needn", "shan", "shouldn", "wasn", "weren", "won", "wouldn"]

/-- The intent table of `_load_intents`, keeping only the pattern lists
(the response texts are not needed by any claim). -/
def intents : List (String × List String) := [
  ("greeting", ["hello", "hi", "hey", "greetings", "good morning",
    "good afternoon"]),
  ("find_station", ["find station", "charging station", "where to charge",
    "nearest station", "charging point", "find charger", "locate station",
    "station near me"]),
  ("pricing", ["price", "cost", "how much", "pricing", "charging cost",
    "fee", "rate", "expensive"]),
  ("charging_time", ["how long", "charging time", "duration",
    "time to charge", "fast charging", "quick charge"]),
  ("connector_types", ["connector", "plug", "cable", "ccs", "chademo",
    "type 2", "j1772", "connector type"]),
  ("availability", ["available", "availability", "station status",
    "in use", "occupied", "free", "open"]),
  ("route_planning", ["route", "plan trip", "navigation", "directions",
    "best route", "optimize route"]),
  ("payment", ["payment", "pay", "credit card", "payment method",
    "how to pay", "app", "membership"]),
  ("benefits", ["benefits", "why ev", "advantages", "eco friendly",
    "environment", "savings"]),
  ("range_anxiety", ["range", "range anxiety", "battery life", "how far",
    "distance", "run out"]),
  ("help", ["help", "support", "assist", "guide", "how to use",
    "tutorial"]),
  ("thanks", ["thank", "thanks", "appreciate", "helpful"])]

def is_word_char (c : Char) : Bool := c.isAlphanum || c == '_'

/-- Whitespace tokenizer over the character list (accumulator holds the
current token reversed). -/
def split_tokens : List Char → List Char → List String
  | acc, [] => if acc.isEmpty then [] else [String.mk acc.reverse]
  | acc, c :: cs =>
    if c.isWhitespace then
      (if acc.isEmpty then [] else [String.mk acc.reverse]) ++ split_tokens [] cs
    else split_tokens (c :: acc) cs

/-- Embedding of `EVChatbot.preprocess_text`. -/
def preprocess_text (text : String) : List String :=
  let lowered := text.data.map Char.toLower
  let stripped := lowered.filter (fun c => is_word_char c || c.isWhitespace)
  let tokens := split_tokens [] stripped
  tokens.filter (fun t => !(stop_words.contains t))

/-- Space-joining of tokens, as in Python join with a space separator. -/
def join_tokens : List String → String
  | [] => ""
  | [t] => t
  | t :: rest => t ++ " " ++ join_tokens rest

def starts_with_chars : List Char → List Char → Bool
  | [], _ => true
  | _ :: _, [] => false
  | p :: ps, c :: cs => p == c && starts_with_chars ps cs

/-- Substring containment on character lists (Python's `in` on strings). -/
def contains_chars : List Char → List Char → Bool
  | pat, [] => pat.isEmpty
  | pat, c :: cs => starts_with_chars pat (c :: cs) || contains_chars pat cs

def str_in (a b : String) : Bool := contains_chars a.data b.data

/-- One pattern's score against the preprocessed user input: the distinct
token overlap, gated by the substring test of `match_intent`; a pattern
failing the gate never updates the best score, which the 0 encodes. -/
def pattern_score (tokens : List String) (user_text : String)
    (pattern : String) : ℕ :=
  let pattern_tokens := preprocess_text pattern
  let pattern_text := join_tokens pattern_tokens
  if str_in pattern_text user_text || str_in user_text pattern_text then
    ((tokens.eraseDups).filter (fun t => pattern_tokens.contains t)).length
  else 0

/-- The (intent, pattern) pairs in the nested loop order of `match_intent`. -/
def intent_pairs : List (String × String) :=
  intents.bind (fun it => it.2.map (fun p => (it.1, p)))

/-- The `best_match`/`best_score` loop of `match_intent`: left fold with
the strict `score > best_score` update. -/
def best_fold (f : String × String → ℕ) (l : List (String × String)) :
    Option String × ℕ :=
  l.foldl (fun a ip => if f ip > a.2 then (some ip.1, f ip) else a)
    ((none : Option String), 0)

/-- Embedding of `EVChatbot.match_intent`. -/
def match_intent (user_input : String) : String :=
  let tokens := preprocess_text user_input
  let user_text := join_tokens tokens
  let best := best_fold
    (fun ip => pattern_score tokens user_text ip.2) intent_pairs
  if best.2 > 0 then best.1.getD "default" else "default"

/-- Which response pool `EVChatbot.get_response` draws from: `some intent`
when the matched intent is a key of the table, `none` for the default
reply. -/
def get_response_source (user_input : String) : Option String :=
  let intent := match_intent user_input
  if (intents.map (fun it => it.1)).contains intent then some intent else none

/-- Modelled from the claim's wording: an intent's token-overlap count
against the user input — the best distinct-token overlap of any of its
patterns, with no substring gate. -/
def spec_intent_overlap (user_input : String) (intent_patterns : List String) : ℕ :=
  let tokens := preprocess_text user_input
  (intent_patterns.map (fun p =>
    ((tokens.eraseDups).filter (fun t => (preprocess_text p).contains t)).length)).foldr
    max 0

/-- The highest score any (intent, pattern) pair attains. -/
def max_score (f : String × String → ℕ) (l : List (String × String)) : ℕ :=
  l.foldr (fun ip m => max (f ip) m) 0

/-- The first (intent, pattern) pair attaining the highest score. -/
def first_attainer (f : String × String → ℕ) (l : List (String × String)) :
    Option (String × String) :=
  l.find? (fun ip => f ip == max_score f l)

/-- Specification-side rendering of the matcher, for the amended claim:
compute the maximal substring-gated overlap score over all
(intent, pattern) pairs; when it is positive the first pair attaining it
wins, otherwise the default marker is returned. -/
def match_intent_ref (user_input : String) : String :=
  let tokens := preprocess_text user_input
  let user_text := join_tokens tokens
  if 0 < max_score (fun ip => pattern_score tokens user_text ip.2) intent_pairs then
    match first_attainer (fun ip => pattern_score tokens user_text ip.2) intent_pairs with
    | some ip => ip.1
    | none => "default"
  else "default"

/-! ### The strict-improvement fold computes the first maximum -/

theorem argmax_foldl_snd (f : (String × String) → ℕ) :
    ∀ (l : List (String × String)) (acc : Option String × ℕ),
    (l.foldl (fun a ip => if f ip > a.2 then (some ip.1, f ip) else a) acc).2 =
      max acc.2 (l.foldr (fun ip m => max (f ip) m) 0) := by
  intro l
  induction l with
  | nil =>
    intro acc
    simp
  | cons x xs ih =>
    intro acc
    rw [List.foldl_cons, List.foldr_cons, ih]
    by_cases h : f x > acc.2
    · rw [if_pos h]
      dsimp only
      omega
    · rw [if_neg h]
      omega

theorem argmax_foldl_fst_no_update (f : (String × String) → ℕ) :
    ∀ (l : List (String × String)) (acc : Option String × ℕ),
    l.foldr (fun ip m => max (f ip) m) 0 ≤ acc.2 →
    (l.foldl (fun a ip => if f ip > a.2 then (some ip.1, f ip) else a) acc).1 =
      acc.1 := by
  intro l
  induction l with
  | nil =>
    intro acc _
    rfl
  | cons x xs ih =>
    intro acc h
    rw [List.foldr_cons] at h
    rw [List.foldl_cons]
    have hx : ¬ (f x > acc.2) := by omega
    rw [if_neg hx]
    exact ih acc (by omega)

theorem argmax_foldl_fst_finds (f : (String × String) → ℕ) :
    ∀ (l : List (String × String)) (acc : Option String × ℕ) (x : String × String),
    acc.2 < l.foldr (fun ip m => max (f ip) m) 0 →
    l.find? (fun ip => f ip == l.foldr (fun ip2 m => max (f ip2) m) 0) = some x →
    (l.foldl (fun a ip => if f ip > a.2 then (some ip.1, f ip) else a) acc).1 =
      some x.1 := by
  intro l
  induction l with
  | nil =>
    intro acc x h _
    simp at h
  | cons y ys ih =>
    intro acc x h hf
    rw [List.foldr_cons] at h
    rw [List.foldl_cons]
    rw [List.find?_cons] at hf
    by_cases hy : f y = max (f y) (ys.foldr (fun ip m => max (f ip) m) 0)
    · have hfy : (f y == (y :: ys).foldr (fun ip2 m => max (f ip2) m) 0) = true := by
        rw [List.foldr_cons]
        simpa using hy
      rw [hfy] at hf
      dsimp only at hf
      have hxy : y = x := Option.some.inj hf
      subst hxy
      have hupd : f y > acc.2 := by omega
      rw [if_pos hupd]
      have hle : ys.foldr (fun ip m => max (f ip) m) 0 ≤ f y := by omega
      have h2 := argmax_foldl_fst_no_update f ys (some y.1, f y) (by simpa using hle)
      simpa using h2
    · have hlt : f y < ys.foldr (fun ip m => max (f ip) m) 0 := by omega
      have hM : max (f y) (ys.foldr (fun ip m => max (f ip) m) 0) =
          ys.foldr (fun ip m => max (f ip) m) 0 := by omega
      have hfy : (f y == (y :: ys).foldr (fun ip2 m => max (f ip2) m) 0) = false := by
        rw [List.foldr_cons]
        simp only [beq_eq_false_iff_ne, ne_eq]
        omega
      rw [hfy] at hf
      dsimp only at hf
      have hf2 : ys.find? (fun ip => f ip ==
          ys.foldr (fun ip2 m => max (f ip2) m) 0) = some x := by
        have hcong : (fun ip => f ip ==
            (y :: ys).foldr (fun ip2 m => max (f ip2) m) 0) =
            (fun ip => f ip == ys.foldr (fun ip2 m => max (f ip2) m) 0) := by
          funext ip
          rw [List.foldr_cons, hM]
        rwa [hcong] at hf
      by_cases hupd : f y > acc.2
      · rw [if_pos hupd]
        exact ih (some y.1, f y) x (by dsimp only; omega) hf2
      · rw [if_neg hupd]
        exact ih acc x (by omega) hf2

theorem foldr_max_attained (f : (String × String) → ℕ) :
    ∀ (l : List (String × String)),
    0 < l.foldr (fun ip m => max (f ip) m) 0 →
    ∃ x, l.find? (fun ip => f ip ==
      l.foldr (fun ip2 m => max (f ip2) m) 0) = some x := by
  intro l
  induction l with
  | nil =>
    intro h
    simp at h
  | cons y ys ih =>
    intro h
    rw [List.foldr_cons] at h
    by_cases hy : f y = max (f y) (ys.foldr (fun ip m => max (f ip) m) 0)
    · refine ⟨y, ?_⟩
      rw [List.find?_cons]
      have hfy : (f y == (y :: ys).foldr (fun ip2 m => max (f ip2) m) 0) = true := by
        rw [List.foldr_cons]
        simpa using hy
      rw [hfy]
    · have hlt : f y < ys.foldr (fun ip m => max (f ip) m) 0 := by omega
      have hM : max (f y) (ys.foldr (fun ip m => max (f ip) m) 0) =
          ys.foldr (fun ip m => max (f ip) m) 0 := by omega
      obtain ⟨x, hx⟩ := ih (by omega)
      refine ⟨x, ?_⟩
      rw [List.find?_cons]
      have hfy : (f y == (y :: ys).foldr (fun ip2 m => max (f ip2) m) 0) = false := by
        rw [List.foldr_cons]
        simp only [beq_eq_false_iff_ne, ne_eq]
        omega
      rw [hfy]
      dsimp only
      have hcong : (fun ip => f ip ==
          (y :: ys).foldr (fun ip2 m => max (f ip2) m) 0) =
          (fun ip => f ip == ys.foldr (fun ip2 m => max (f ip2) m) 0) := by
        funext ip
        rw [List.foldr_cons, hM]
      rwa [hcong]

theorem argmax_foldl_fst_mem (f : (String × String) → ℕ) :
    ∀ (l : List (String × String)) (acc : Option String × ℕ),
    (l.foldl (fun a ip => if f ip > a.2 then (some ip.1, f ip) else a) acc).1 =
      acc.1 ∨
    ∃ ip ∈ l, (l.foldl (fun a ip => if f ip > a.2 then (some ip.1, f ip) else a)
      acc).1 = some ip.1 := by
  intro l
  induction l with
  | nil =>
    intro acc
    exact Or.inl rfl
  | cons x xs ih =>
    intro acc
    rw [List.foldl_cons]
    by_cases h : f x > acc.2
    · rw [if_pos h]
      rcases ih (some x.1, f x) with h2 | ⟨ip, hip, h2⟩
      · exact Or.inr ⟨x, List.mem_cons_self _ _, h2⟩
      · exact Or.inr ⟨ip, List.mem_cons_of_mem _ hip, h2⟩
    · rw [if_neg h]
      rcases ih acc with h2 | ⟨ip, hip, h2⟩
      · exact Or.inl h2
      · exact Or.inr ⟨ip, List.mem_cons_of_mem _ hip, h2⟩

theorem best_fold_snd (f : String × String → ℕ) (l : List (String × String)) :
    (best_fold f l).2 = max_score f l := by
  unfold best_fold max_score
  rw [argmax_foldl_snd]
  simp

theorem best_fold_fst_of_zero (f : String × String → ℕ) (l : List (String × String))
    (h : max_score f l = 0) : (best_fold f l).1 = none := by
  unfold best_fold
  exact argmax_foldl_fst_no_update f l ((none : Option String), 0) (le_of_eq h)

theorem best_fold_fst_of_pos (f : String × String → ℕ) (l : List (String × String))
    (x : String × String) (h : 0 < max_score f l)
    (hx : first_attainer f l = some x) : (best_fold f l).1 = some x.1 := by
  unfold best_fold
  exact argmax_foldl_fst_finds f l ((none : Option String), 0) x h hx

theorem max_score_attained (f : String × String → ℕ) (l : List (String × String))
    (h : 0 < max_score f l) : ∃ x, first_attainer f l = some x :=
  foldr_max_attained f l h

theorem best_fold_fst_mem (f : String × String → ℕ) (l : List (String × String)) :
    (best_fold f l).1 = none ∨ ∃ ip ∈ l, (best_fold f l).1 = some ip.1 := by
  unfold best_fold
  rcases argmax_foldl_fst_mem f l ((none : Option String), 0) with h | h
  · exact Or.inl h
  · exact Or.inr h

/-- C2 amended: the matcher returns the FIRST (intent, pattern) pair
attaining the highest substring-gated token-overlap score when that score
is positive — ties are won by the earlier intent in table order, not by the
default — and `get_response` falls back to the default reply exactly when
no pattern attains a positive gated score. -/
theorem C2_match_first_max_ties_to_earliest (user_input : String) :
    match_intent user_input = match_intent_ref user_input ∧
    (get_response_source user_input = none ↔ match_intent user_input = "default") := by
  have hmain : match_intent user_input = match_intent_ref user_input := by
    simp only [match_intent, match_intent_ref]
    generalize (fun ip : String × String => pattern_score (preprocess_text user_input)
      (join_tokens (preprocess_text user_input)) ip.2) = F
    rw [best_fold_snd F intent_pairs]
    by_cases hpos : 0 < max_score F intent_pairs
    · obtain ⟨x, hx⟩ := max_score_attained F intent_pairs hpos
      rw [if_pos hpos, if_pos hpos, best_fold_fst_of_pos F intent_pairs x hpos hx, hx]
      rfl
    · rw [if_neg hpos, if_neg hpos]
  have hnames : match_intent user_input ≠ "default" →
      ((intents.map (fun it => it.1)).contains (match_intent user_input)) = true := by
    intro hne
    have hexp : match_intent user_input =
        (if (best_fold (fun ip => pattern_score (preprocess_text user_input)
            (join_tokens (preprocess_text user_input)) ip.2) intent_pairs).2 > 0
         then (best_fold (fun ip => pattern_score (preprocess_text user_input)
            (join_tokens (preprocess_text user_input)) ip.2) intent_pairs).1.getD "default"
         else "default") := rfl
    by_cases hif : (best_fold (fun ip => pattern_score (preprocess_text user_input)
        (join_tokens (preprocess_text user_input)) ip.2) intent_pairs).2 > 0
    · rw [if_pos hif] at hexp
      rcases best_fold_fst_mem (fun ip => pattern_score (preprocess_text user_input)
          (join_tokens (preprocess_text user_input)) ip.2) intent_pairs with h | ⟨ip, hip, h⟩
      · rw [h] at hexp
        exact absurd hexp hne
      · rw [h] at hexp
        obtain ⟨it, hit, hmem2⟩ := List.mem_bind.mp hip
        obtain ⟨p, _, rfl⟩ := List.mem_map.mp hmem2
        have hm3 : (it.1, p).1 ∈ intents.map (fun it2 => it2.1) :=
          List.mem_map_of_mem _ hit
        rw [hexp]
        exact List.elem_eq_true_of_mem hm3
    · rw [if_neg hif] at hexp
      exact absurd hexp hne
  refine ⟨hmain, ?_⟩
  by_cases hd : match_intent user_input = "default"
  · simp only [get_response_source]
    rw [hd]
    have hc : ((intents.map (fun it => it.1)).contains "default") = false := by decide
    rw [hc]
    simp
  · simp only [get_response_source]
    rw [hnames hd]
    simp [hd]

set_option maxRecDepth 100000

/-- C2 counterexample: on the input "price range" the intents `pricing` and
`range_anxiety` tie for the highest token overlap (1 each, every other
intent scores 0), yet `get_response` does not fall back to the default
reply: the earlier intent `pricing` wins. -/
theorem C2_counterexample :
    spec_intent_overlap "price range" ((intents.lookup "pricing").getD []) = 1 ∧
    spec_intent_overlap "price range" ((intents.lookup "range_anxiety").getD []) = 1 ∧
    (intents.map (fun it => spec_intent_overlap "price range" it.2)) =
      [0, 0, 1, 0, 0, 0, 0, 0, 0, 1, 0, 0] ∧
    match_intent "price range" = "pricing" ∧
    get_response_source "price range" = some "pricing" := by
  refine ⟨by decide, by decide, by decide, by decide, by decide⟩

/-- Witness for C2's amended theorem at a concrete input. -/
theorem C2_witness :
    match_intent "hello" = match_intent_ref "hello" ∧
    (get_response_source "hello" = none ↔ match_intent "hello" = "default") :=
  C2_match_first_max_ties_to_earliest "hello"

end EVSpec
